import Mathlib

/-!
Shallow embedding of `src/main.rs` of the `ws` session-switching tool.

Pure functions (`State::push_history`, `State::previous_session`,
`State::cache_valid`, the pick-list construction and index resolution,
`scan_projects`'s collection and sorting) are translated directly.
Effectful operations (tmux commands, the interactive picker, file reads,
state saves) are modelled by passing their results in as explicit
parameters of type `Except String _` / `Option _`, mirroring Rust's
`Result` / `Option` at each call site.
-/

namespace Ws

/-- Constant `STATE_VERSION` from main.rs. -/
def STATE_VERSION : Nat := 1

/-- Constant `MAX_HISTORY_SIZE` from main.rs. -/
def MAX_HISTORY_SIZE : Nat := 10

/-- Constant `CACHE_TTL_SECONDS` from main.rs (an `i64` in the source). -/
def CACHE_TTL_SECONDS : Int := 3600

/-- Struct `ProjectInfo` from main.rs. -/
structure ProjectInfo where
  path : String
  category : String
  name : String
deriving Repr, DecidableEq

/-- Method `ProjectInfo::display_name`: `format!("{}/{}", category, name)`. -/
def ProjectInfo.display_name (p : ProjectInfo) : String :=
  p.category ++ "/" ++ p.name

/-- Struct `SessionInfo` from main.rs. -/
structure SessionInfo where
  name : String
  last_active : Int
deriving Repr, DecidableEq

/-- Enum `SelectableItem` from main.rs. -/
inductive SelectableItem where
  | Session (name : String)
  | Project (info : ProjectInfo)
deriving Repr, DecidableEq

/-- Method `SelectableItem::to_display_string` from main.rs. -/
def SelectableItem.to_display_string : SelectableItem → String
  | .Session name => "session: " ++ name
  | .Project info => "project: " ++ info.display_name

/-- Struct `ProjectCache` from main.rs. -/
structure ProjectCache where
  projects : List ProjectInfo
  updated_at : Int
  ttl : Int
deriving Repr, DecidableEq

/-- Struct `State` from main.rs. -/
structure State where
  version : Nat
  history : List String
  cache : ProjectCache
deriving Repr, DecidableEq

/-- `impl Default for State` from main.rs. -/
def State.default : State :=
  { version := STATE_VERSION
    history := []
    cache := { projects := [], updated_at := 0, ttl := CACHE_TTL_SECONDS } }

/-- Method `State::load` from main.rs:
`fs::read_to_string(..).ok().and_then(|c| serde_json::from_str(&c).ok()).unwrap_or_default()`.
The file read is modelled by `readResult` (`none` = I/O failure) and the
serde parse by `parse` (`none` = parse failure). -/
def State.load (readResult : Option String) (parse : String → Option State) : State :=
  (readResult.bind fun contents => parse contents).getD State.default

/-- Method `State::push_history` from main.rs: retain everything different
from `session`, push `session`, and if the length exceeds
`MAX_HISTORY_SIZE` remove the element at index 0. -/
def State.push_history (s : State) (session : String) : State :=
  let h := s.history.filter (fun x => x ≠ session)
  let h := h ++ [session]
  let h := if h.length > MAX_HISTORY_SIZE then h.drop 1 else h
  { s with history := h }

/-- Method `State::previous_session` from main.rs. -/
def State.previous_session (s : State) : Option String :=
  if s.history.length ≥ 2 then s.history.get? (s.history.length - 2)
  else s.history.getLast?

/-- Method `State::cache_valid` from main.rs, with the call to
`current_timestamp()` passed in as `now`. -/
def State.cache_valid (s : State) (now : Int) : Bool :=
  decide (now - s.cache.updated_at < s.cache.ttl)

/-- Folding `State::push_history` over a list of names starting from the
default (empty) state: "any sequence of pushHistory calls". -/
def pushAll (names : List String) : State :=
  names.foldl State.push_history State.default

/-- Result of running the external `tmux display-message -p "#{session_name}"`
command: its exit status and captured standard output. -/
structure CmdOutput where
  success : Bool
  stdout : String

/-- Method `TmuxClient::current_session` from main.rs, with the spawned
command's outcome passed in as `output`. -/
def TmuxClient.current_session (output : CmdOutput) : Except String String :=
  if output.success then .ok output.stdout.trim
  else .error "Failed to get current session"

/-- The selectable-item and display-string lists built by
`handle_pick_command` (main.rs lines 371-391): session items first, then
project items; the display strings get a `"---"` separator inserted at
position `sessions.len()` exactly when `in_tmux && !sessions.is_empty()
&& !state.cache.projects.is_empty()`, in which case `separator_offset`
is 1 (else 0). Returns `(selectable_items, display_strings,
separator_offset)`. -/
def build_pick_lists (in_tmux : Bool) (sessions : List SessionInfo)
    (projects : List ProjectInfo) :
    List SelectableItem × List String × Nat :=
  let selectable_items :=
    sessions.map (fun s => SelectableItem.Session s.name)
      ++ projects.map SelectableItem.Project
  let display_strings := selectable_items.map SelectableItem.to_display_string
  if in_tmux && !sessions.isEmpty && !projects.isEmpty then
    (selectable_items,
     display_strings.take sessions.length ++ ["---"]
       ++ display_strings.drop sessions.length,
     1)
  else
    (selectable_items, display_strings, 0)

/-- The index-resolution logic of `handle_pick_command` (main.rs lines
398-410): compute `adjusted_index`, return a clean no-op when the
separator row itself was picked, otherwise index `selectable_items`,
turning an out-of-range index into the `"Invalid selection"` error. -/
def resolve_index (separator_offset : Nat) (session_count : Nat)
    (selected_index : Nat) (selectable_items : List SelectableItem) :
    Except String (Option SelectableItem) :=
  let adjusted_index :=
    if separator_offset > 0 && selected_index ≥ session_count then
      selected_index - separator_offset
    else selected_index
  if separator_offset > 0 && selected_index = session_count then .ok none
  else
    match selectable_items.get? adjusted_index with
    | none => .error "Invalid selection"
    | some item => .ok (some item)

/-- The tmux calls made by `handle_selection`, as results passed in:
`has_session`, `create_session` and `switch_or_attach` each return a
Rust `Result` modelled as `Except String _`, and `save` models
`State::save`. -/
structure PickEffects where
  has_session : String → Except String Bool
  create_session : String → String → Except String Unit
  switch_or_attach : String → Except String Unit
  save : State → Except String Unit

/-- Function `handle_selection` from main.rs: for a session, push it to
history and switch-or-attach; for a project, create its session if
absent, push its name and switch-or-attach. Returns the mutated state. -/
def handle_selection (item : SelectableItem) (state : State)
    (fx : PickEffects) : Except String State :=
  match item with
  | .Session name => do
    let state := state.push_history name
    let _ ← fx.switch_or_attach name
    .ok state
  | .Project project => do
    let session_name := project.name
    let has ← fx.has_session session_name
    if !has then
      let _ ← fx.create_session session_name project.path
      let state := state.push_history session_name
      let _ ← fx.switch_or_attach session_name
      .ok state
    else
      let state := state.push_history session_name
      let _ ← fx.switch_or_attach session_name
      .ok state

/-- Function `handle_pick_command` from main.rs, starting after
`State::load` / `ensure_cache_valid` (whose state is the `state`
argument). `list_sessions` is the result of `TmuxClient::list_sessions`
(its error is discarded by `unwrap_or_default`), `pick` the interactive
picker. Returns `none` on picker abort or separator pick, otherwise the
handled item with the saved state. -/
def handle_pick_command (state : State) (in_tmux : Bool)
    (list_sessions : Except String (List SessionInfo))
    (pick : List String → Option Nat) (fx : PickEffects) :
    Except String (Option (SelectableItem × State)) :=
  let sessions := if in_tmux then list_sessions.toOption.getD [] else []
  match build_pick_lists in_tmux sessions state.cache.projects with
  | (selectable_items, display_strings, separator_offset) =>
    match pick display_strings with
    | none => .ok none
    | some selected_index =>
      match resolve_index separator_offset sessions.length selected_index
          selectable_items with
      | .error e => .error e
      | .ok none => .ok none
      | .ok (some item) => do
        let state' ← handle_selection item state fx
        let _ ← fx.save state'
        .ok (some (item, state'))

/-- The tmux calls made by `handle_kill_command`, as results passed in. -/
structure KillEffects where
  kill_session : String → Except String Unit
  switch_client : String → Except String Unit
  save : State → Except String Unit

/-- What a run of the kill flow did: the session killed (if any), the
target of the attempted fallback `switch_client` (if any), the state
passed to `State::save` (if reached), and any informational notice. -/
structure KillOutcome where
  killed : Option String
  switched : Option String
  saved : Option State
  notice : Option String
deriving Repr, DecidableEq

/-- Function `handle_kill_command` from main.rs. `list_sessions` and
`current_result` are the results of the two tmux queries (note the
source applies `.ok()` to the latter, so its error is swallowed into
`none`); `pick` is the picker, whose returned index is a position in the
label list it was given (guaranteed by `Picker::pick`, which returns
`items.iter().position(..)`). The fallback `switch_client` call has its
result discarded (`.ok()` in the source). -/
def handle_kill_command (list_sessions : Except String (List SessionInfo))
    (state : State) (current_result : Except String String)
    (pick : (labels : List String) → Option (Fin labels.length))
    (fx : KillEffects) : Except String KillOutcome :=
  match list_sessions with
  | .error e => .error e
  | .ok sessions =>
    if sessions.isEmpty then
      .ok { killed := none, switched := none, saved := none
            notice := some "No sessions to kill" }
    else
      let current := current_result.toOption
      let session_names := sessions.map (fun s => s.name)
      match pick session_names with
      | none => .ok { killed := none, switched := none, saved := none
                      notice := none }
      | some selected_index =>
        let selected := session_names.get selected_index
        let previous := state.previous_session
        match fx.kill_session selected with
        | .error e => .error e
        | .ok _ =>
          let switched : Option String :=
            if current = some selected then
              match previous with
              | some prev =>
                if prev ≠ selected then
                  let _ := (fx.switch_client prev).toOption
                  some prev
                else none
              | none => none
            else none
          let state' := { state with
                          history := state.history.filter (fun s => s ≠ selected) }
          match fx.save state' with
          | .error e => .error e
          | .ok _ =>
            .ok { killed := some selected, switched := switched
                  saved := some state', notice := none }

/-- What a run of the back flow did. -/
structure BackOutcome where
  switched : Option String
  saved : Option State
  notice : Option String
deriving Repr, DecidableEq

/-- Function `handle_back_command` from main.rs, with the
`switch_client` and `save` call results passed in. -/
def handle_back_command (state : State)
    (switch_client : String → Except String Unit)
    (save : State → Except String Unit) : Except String BackOutcome :=
  match state.previous_session with
  | some previous =>
    match switch_client previous with
    | .error e => .error e
    | .ok _ =>
      let state' := state.push_history previous
      match save state' with
      | .error e => .error e
      | .ok _ => .ok { switched := some previous, saved := some state'
                       notice := none }
  | none => .ok { switched := none, saved := none
                  notice := some "No previous session in history" }

/-- A node of the filesystem as seen by the `WalkDir` walk in
`scan_projects`: `name` is the decoded final path component (`none` when
it cannot be decoded as valid UTF-8, i.e. `to_str()` fails), `path` the
full path (via lossy conversion, always available), `is_dir` the entry's
file type, `readable` whether listing this directory succeeds (an
unreadable subtree yields walk errors, which `filter_map(|e| e.ok())`
drops), and `children` its directory entries. -/
structure FsNode where
  name : Option String
  path : String
  is_dir : Bool
  readable : Bool
  children : List FsNode

/-- Comparison used by the sort in `scan_projects`:
`a.category.cmp(&b.category).then_with(|| a.name.cmp(&b.name))` as a
(total, transitive) ordering relation on `ProjectInfo`. -/
def ProjectInfo.le (a b : ProjectInfo) : Prop :=
  a.category < b.category ∨ (a.category = b.category ∧ a.name ≤ b.name)

instance : DecidableRel ProjectInfo.le := fun a b =>
  inferInstanceAs (Decidable (a.category < b.category ∨
    (a.category = b.category ∧ a.name ≤ b.name)))

/-- Function `scan_projects` from main.rs over the modelled filesystem
rooted at `root` (the workspace root after tilde expansion): `WalkDir`
with `min_depth(2).max_depth(2)` yields exactly the grandchildren of the
root, descending only into readable directories; entries are kept when
they are directories and both their parent's name (the category) and
their own name decode; the collected list is sorted by `(category,
name)`. -/
def scan_projects (root : FsNode) : List ProjectInfo :=
  let depth1 := if root.readable then root.children else []
  let collected := depth1.flatMap (fun cat =>
    let depth2 := if cat.is_dir && cat.readable then cat.children else []
    depth2.filterMap (fun entry =>
      if entry.is_dir then
        match cat.name, entry.name with
        | some category, some name =>
          some { path := entry.path, category := category, name := name }
        | _, _ => none
      else none))
  collected.insertionSort ProjectInfo.le

/-! ### Helper lemmas about `State.push_history` -/

/-- Unfolding of the history computed by `State.push_history`. -/
theorem push_history_history_def (st : State) (s : String) :
    (st.push_history s).history =
      if (st.history.filter (fun x => x ≠ s) ++ [s]).length > MAX_HISTORY_SIZE
      then (st.history.filter (fun x => x ≠ s) ++ [s]).drop 1
      else st.history.filter (fun x => x ≠ s) ++ [s] := rfl

/-- Pushing preserves the history bound. -/
theorem push_history_length_le (st : State) (s : String)
    (h : st.history.length ≤ MAX_HISTORY_SIZE) :
    (st.push_history s).history.length ≤ MAX_HISTORY_SIZE := by
  have hf := List.length_filter_le (fun x => x ≠ s) st.history
  rw [push_history_history_def]
  split
  · simp only [List.length_drop, List.length_append, List.length_singleton]
    omega
  · omega

/-- Pushing preserves freedom from duplicates. -/
theorem push_history_nodup (st : State) (s : String)
    (h : st.history.Nodup) :
    (st.push_history s).history.Nodup := by
  have h1 : (st.history.filter (fun x => x ≠ s) ++ [s]).Nodup := by
    rw [List.nodup_append]
    refine ⟨h.filter _, List.nodup_singleton s, ?_⟩
    intro a ha hb
    rw [List.mem_filter] at ha
    simp only [List.mem_singleton] at hb
    subst hb
    simpa using ha.2
  rw [push_history_history_def]
  split
  · exact List.Nodup.sublist (List.drop_sublist 1 _) h1
  · exact h1

/-- The pushed name always ends up last. -/
theorem push_history_getLast (st : State) (s : String) :
    (st.push_history s).history.getLast? = some s := by
  rw [push_history_history_def]
  split
  · next hgt =>
    have h1 : (1 : Nat) ≤ (st.history.filter (fun x => x ≠ s)).length := by
      by_contra hc
      have : (st.history.filter (fun x => x ≠ s)).length = 0 := by omega
      rw [List.length_append, this] at hgt
      simp [MAX_HISTORY_SIZE] at hgt
    rw [List.drop_append_of_le_length h1, List.getLast?_concat]
  · exact List.getLast?_concat _

/-- The bound and no-duplicates invariants are preserved by any fold of
pushes. -/
theorem pushAll_invariant (names : List String) (init : State)
    (hlen : init.history.length ≤ MAX_HISTORY_SIZE)
    (hnd : init.history.Nodup) :
    (names.foldl State.push_history init).history.length ≤ MAX_HISTORY_SIZE ∧
    (names.foldl State.push_history init).history.Nodup := by
  induction names generalizing init with
  | nil => exact ⟨hlen, hnd⟩
  | cons n ns ih =>
    exact ih _ (push_history_length_le _ _ hlen) (push_history_nodup _ _ hnd)

/-- After any sequence of pushes from the default state, the last history
entry is the last pushed name. -/
theorem pushAll_getLast (names : List String) :
    (pushAll names).history.getLast? = names.getLast? := by
  rcases List.eq_nil_or_concat names with h | ⟨ns, n, h⟩
  · subst h; rfl
  · subst h
    simp only [List.concat_eq_append]
    rw [pushAll, List.foldl_concat, push_history_getLast,
      List.getLast?_concat]

/-! ### Claim theorems -/

/-- C3: for any sequence of `pushHistory` calls starting from the empty
default history, the history never exceeds 10 entries, never contains a
duplicate, and the most recently pushed name is always last; pushing a
name already present moves it to the most-recent position instead of
duplicating it, and when the bound is exceeded the oldest (first) entry
is evicted. -/
theorem push_history_invariants :
    (∀ names : List String,
      (pushAll names).history.length ≤ MAX_HISTORY_SIZE ∧
      (pushAll names).history.Nodup ∧
      (pushAll names).history.getLast? = names.getLast?) ∧
    (∀ (st : State) (s : String), st.history.length ≤ MAX_HISTORY_SIZE →
      s ∈ st.history →
      (st.push_history s).history =
        st.history.filter (fun x => x ≠ s) ++ [s]) ∧
    (∀ (st : State) (s : String), st.history.length = MAX_HISTORY_SIZE →
      s ∉ st.history →
      (st.push_history s).history = st.history.drop 1 ++ [s]) := by
  refine ⟨fun names =>
    ⟨(pushAll_invariant names State.default (by decide) (by decide)).1,
     (pushAll_invariant names State.default (by decide) (by decide)).2,
     pushAll_getLast names⟩, ?_, ?_⟩
  · intro st s hlen hmem
    have hlt : (st.history.filter (fun x => x ≠ s)).length <
        st.history.length := by
      rw [List.length_filter_lt_length_iff_exists]
      exact ⟨s, hmem, by simp⟩
    rw [push_history_history_def, if_neg]
    simp only [List.length_append, List.length_singleton, gt_iff_lt,
      not_lt]
    omega
  · intro st s hlen hnot
    have hM : MAX_HISTORY_SIZE = 10 := rfl
    have hfe : st.history.filter (fun x => x ≠ s) = st.history :=
      List.filter_eq_self.mpr fun a ha => by
        simp only [ne_eq, decide_eq_true_eq]
        exact fun he => hnot (he ▸ ha)
    have hgt : (st.history ++ [s]).length > MAX_HISTORY_SIZE := by
      simp only [List.length_append, List.length_singleton]
      omega
    have h1 : (1 : Nat) ≤ st.history.length := by omega
    rw [push_history_history_def, hfe, if_pos hgt,
      List.drop_append_of_le_length h1]

/-- Witness for C3: re-pushing the already present name `"s"` onto the
two-entry history `["a", "s"]` moves it to the most-recent position
without duplicating it. -/
theorem push_history_invariants_witness :
    (State.push_history
        { version := 1, history := ["a", "s"],
          cache := { projects := [], updated_at := 0, ttl := 3600 } }
        "s").history =
      ["a", "s"].filter (fun x => x ≠ "s") ++ ["s"] :=
  push_history_invariants.2.1 _ "s" (by decide) (by decide)

/-- C4: `previousSession` returns the second-to-last entry if at least
two entries exist, otherwise the last entry if exactly one exists,
otherwise none; after pushing `[A, B]` it returns `A`, after pushing
only `[A]` it returns `A`, with no pushes it returns none, and after
pushing `[A, B, A]` the history is `[B, A]` and it returns `B`. -/
theorem previous_session_spec (st : State) :
    (∀ (l : List String) (a b : String), st.history = l ++ [a, b] →
      st.previous_session = some a) ∧
    (∀ a : String, st.history = [a] → st.previous_session = some a) ∧
    (st.history = [] → st.previous_session = none) ∧
    (pushAll ["A", "B"]).previous_session = some "A" ∧
    (pushAll ["A"]).previous_session = some "A" ∧
    (pushAll []).previous_session = none ∧
    (pushAll ["A", "B", "A"]).history = ["B", "A"] ∧
    (pushAll ["A", "B", "A"]).previous_session = some "B" := by
  refine ⟨?_, ?_, ?_, by decide, by decide, by decide, by decide, by decide⟩
  · intro l a b h
    unfold State.previous_session
    rw [h, if_pos (by simp)]
    rw [List.get?_eq_getElem?]
    have hL : (l ++ [a, b]).length - 2 = l.length := by
      simp [List.length_append]
    rw [hL, List.getElem?_append_right (le_refl _)]
    simp
  · intro a h
    unfold State.previous_session
    rw [h, if_neg (by simp)]
    rfl
  · intro h
    unfold State.previous_session
    rw [h, if_neg (by simp)]
    rfl

/-- Witness for C4: with history `["x", "a", "b"]` the previous session
is the second-to-last entry `"a"`. -/
theorem previous_session_spec_witness :
    State.previous_session
      { version := 1, history := ["x", "a", "b"],
        cache := { projects := [], updated_at := 0, ttl := 3600 } } =
      some "a" :=
  (previous_session_spec _).1 ["x"] "a" "b" rfl

/-- C6: on any I/O or parse failure of the state file, `load()` returns
the zero-value default record: current version, empty history, and an
empty project cache with `updatedAt = 0` and `ttl = 3600`. (`load` is a
total Lean function, so it can never raise a fatal error.) -/
theorem load_defaults_on_failure (readResult : Option String)
    (parse : String → Option State)
    (hfail : ∀ c, readResult = some c → parse c = none) :
    State.load readResult parse = State.default ∧
    State.default.version = STATE_VERSION ∧
    State.default.history = [] ∧
    State.default.cache.projects = [] ∧
    State.default.cache.updated_at = 0 ∧
    State.default.cache.ttl = 3600 := by
  refine ⟨?_, rfl, rfl, rfl, rfl, rfl⟩
  cases readResult with
  | none => rfl
  | some c => simp [State.load, hfail c rfl]

/-- Witness for C6: loading unparseable contents yields the default
state. -/
theorem load_defaults_on_failure_witness :
    State.load (some "garbage") (fun _ => none) = State.default :=
  (load_defaults_on_failure (some "garbage") (fun _ => none)
    (fun _ _ => rfl)).1

/-- C7: `cacheValid()` returns true exactly when
`now - cache.updatedAt < cache.ttl`; the default ttl is 3600 seconds; a
cache stamped at time `T` with ttl 3600 is valid at `T + 3599` and
invalid at `T + 3601`. -/
theorem cache_valid_iff (s : State) (now T : Int) (v : Nat)
    (h : List String) (ps : List ProjectInfo) :
    (s.cache_valid now = true ↔ now - s.cache.updated_at < s.cache.ttl) ∧
    State.default.cache.ttl = 3600 ∧
    State.cache_valid
      { version := v, history := h,
        cache := { projects := ps, updated_at := T, ttl := 3600 } }
      (T + 3599) = true ∧
    State.cache_valid
      { version := v, history := h,
        cache := { projects := ps, updated_at := T, ttl := 3600 } }
      (T + 3601) = false := by
  refine ⟨decide_eq_true_iff, rfl, ?_, ?_⟩
  · simp only [State.cache_valid, decide_eq_true_eq]
    omega
  · simp only [State.cache_valid, decide_eq_false_iff_not]
    omega

/-- C10: when the process is not inside tmux, the pick flow's outcome is
independent of the live-session list (it is never consulted), and the
built selection list consists of exactly the project entries, with no
separator. -/
theorem pick_outside_tmux_projects_only (state : State)
    (ls ls' : Except String (List SessionInfo))
    (pick : List String → Option Nat) (fx : PickEffects) :
    handle_pick_command state false ls pick fx =
      handle_pick_command state false ls' pick fx ∧
    (build_pick_lists false [] state.cache.projects).1 =
      state.cache.projects.map SelectableItem.Project ∧
    (build_pick_lists false [] state.cache.projects).2.1 =
      state.cache.projects.map
        (fun p => (SelectableItem.Project p).to_display_string) ∧
    (build_pick_lists false [] state.cache.projects).2.2 = 0 := by
  refine ⟨rfl, by simp [build_pick_lists], by simp [build_pick_lists], rfl⟩

/-- Two live sessions used in concrete examples. -/
def exSessions : List SessionInfo :=
  [{ name := "s0", last_active := 0 }, { name := "s1", last_active := 0 }]

/-- Three cached projects used in concrete examples. -/
def exProjects : List ProjectInfo :=
  [{ path := "/ws/w/a", category := "w", name := "a" },
   { path := "/ws/w/b", category := "w", name := "b" },
   { path := "/ws/w/c", category := "w", name := "c" }]

/-- C1: the separator is inserted if and only if there is at least one
session, at least one project, and the process is inside tmux; with the
separator present, a raw index equal to the session count resolves to no
selection, a greater raw index is shifted down by one before indexing
the combined logical list, and in every other case (including all
no-separator cases) the raw index indexes the combined list directly. -/
theorem pick_separator_and_resolution (in_tmux : Bool)
    (sessions : List SessionInfo) (projects : List ProjectInfo)
    (items : List SelectableItem) (display : List String) (sep : Nat)
    (hbuild : build_pick_lists in_tmux sessions projects =
      (items, display, sep)) (raw : Nat) :
    (sep = 1 ↔ sessions ≠ [] ∧ projects ≠ [] ∧ in_tmux = true) ∧
    items = sessions.map (fun s => SelectableItem.Session s.name) ++
      projects.map SelectableItem.Project ∧
    (sep = 1 → display =
      sessions.map (fun s => (SelectableItem.Session s.name).to_display_string)
        ++ ["---"]
        ++ projects.map (fun p => (SelectableItem.Project p).to_display_string)) ∧
    (sep = 0 → display =
      sessions.map (fun s => (SelectableItem.Session s.name).to_display_string)
        ++ projects.map (fun p => (SelectableItem.Project p).to_display_string)) ∧
    (sep = 1 → raw = sessions.length →
      resolve_index sep sessions.length raw items = .ok none) ∧
    (sep = 1 → raw > sessions.length →
      resolve_index sep sessions.length raw items =
        match items.get? (raw - 1) with
        | none => .error "Invalid selection"
        | some item => .ok (some item)) ∧
    (sep = 0 ∨ raw < sessions.length →
      resolve_index sep sessions.length raw items =
        match items.get? raw with
        | none => .error "Invalid selection"
        | some item => .ok (some item)) := by
  simp only [build_pick_lists] at hbuild
  by_cases hc : (in_tmux && !sessions.isEmpty && !projects.isEmpty) = true
  · rw [if_pos hc] at hbuild
    injection hbuild with hi h2
    injection h2 with hd hsep
    subst hi; subst hd; subst hsep
    simp only [Bool.and_eq_true, Bool.not_eq_true'] at hc
    obtain ⟨⟨htmux, hs⟩, hp⟩ := hc
    have hs' : sessions ≠ [] := fun h => by simp [h] at hs
    have hp' : projects ≠ [] := fun h => by simp [h] at hp
    refine ⟨by simp [hs', hp', htmux], rfl, ?_, ?_, ?_, ?_, ?_⟩
    · intro _
      simp only [List.map_append, List.map_map]
      rw [List.take_left' (by simp), List.drop_left' (by simp)]
      rfl
    · intro h
      exact absurd h one_ne_zero
    · intro _ hraw
      subst hraw
      simp [resolve_index]
    · intro _ hraw
      have hge : sessions.length ≤ raw := le_of_lt hraw
      have hne' : ¬(raw = sessions.length) := by omega
      simp [resolve_index, hge, hne']
    · rintro (h | hlt)
      · exact absurd h one_ne_zero
      · have h1 : ¬(sessions.length ≤ raw) := not_le.mpr hlt
        have h2 : ¬(raw = sessions.length) := by omega
        simp [resolve_index, h1, h2]
  · rw [if_neg hc] at hbuild
    injection hbuild with hi h2
    injection h2 with hd hsep
    subst hi; subst hd; subst hsep
    refine ⟨?_, rfl, ?_, ?_, ?_, ?_, ?_⟩
    · constructor
      · intro h
        exact absurd h zero_ne_one
      · rintro ⟨hs, hp, ht⟩
        exact absurd (by simp [ht, hs, hp, List.isEmpty_iff]) hc
    · intro h
      exact absurd h zero_ne_one
    · intro _
      simp only [List.map_append, List.map_map]
      rfl
    · intro h
      exact absurd h zero_ne_one
    · intro h
      exact absurd h zero_ne_one
    · intro _
      simp [resolve_index]

/-- Witness for C1, at the spec's example sizes (2 sessions, 3 projects,
inside tmux, separator present): raw index 2 (the separator) resolves to
no selection, raw index 3 resolves to project 0, and raw index 1
resolves to session 1. -/
theorem pick_separator_and_resolution_witness :
    resolve_index 1 2 2 (build_pick_lists true exSessions exProjects).1 =
      .ok none ∧
    resolve_index 1 2 3 (build_pick_lists true exSessions exProjects).1 =
      .ok (some (SelectableItem.Project
        { path := "/ws/w/a", category := "w", name := "a" })) ∧
    resolve_index 1 2 1 (build_pick_lists true exSessions exProjects).1 =
      .ok (some (SelectableItem.Session "s1")) :=
  ⟨(pick_separator_and_resolution true exSessions exProjects _ _ _ rfl
      2).2.2.2.2.1 rfl rfl,
   (pick_separator_and_resolution true exSessions exProjects _ _ _ rfl
      3).2.2.2.2.2.1 rfl (by decide),
   (pick_separator_and_resolution true exSessions exProjects _ _ _ rfl
      1).2.2.2.2.2.2 (Or.inr (by decide))⟩

/-- A picker that always chooses the first label (a concrete instance of
the guarantee that `Picker::pick` returns a position in its input). -/
def pickFirst : (labels : List String) → Option (Fin labels.length) :=
  fun labels => if h : 0 < labels.length then some ⟨0, h⟩ else none

/-- Kill-flow effects that all succeed. -/
def killFxOk : KillEffects :=
  { kill_session := fun _ => .ok ()
    switch_client := fun _ => .ok ()
    save := fun _ => .ok () }

/-- C2: in the kill flow, "previous" is computed from the history before
it is mutated; the client is switched to that previous session iff the
killed session was the currently-focused one, a previous session exists,
and it differs from the killed one (quantifying over an arbitrary
`switch_client` result makes its failure non-fatal); and every
occurrence of the killed session's name is removed from history and the
state persisted. -/
theorem kill_flow_spec (sessions : List SessionInfo) (state : State)
    (current_result : Except String String)
    (pick : (labels : List String) → Option (Fin labels.length))
    (fx : KillEffects)
    (idx : Fin (sessions.map (fun s => s.name)).length)
    (hpick : pick (sessions.map (fun s => s.name)) = some idx)
    (hkill : fx.kill_session ((sessions.map (fun s => s.name)).get idx) =
      .ok ())
    (hsave : ∀ st, fx.save st = .ok ()) :
    ∃ out, handle_kill_command (.ok sessions) state current_result pick fx
        = .ok out ∧
      out.killed = some ((sessions.map (fun s => s.name)).get idx) ∧
      out.saved = some { state with
                         history := state.history.filter
                           (fun s => s ≠ (sessions.map (fun x => x.name)).get idx) } ∧
      out.notice = none ∧
      (∀ p, out.switched = some p ↔
        (current_result.toOption =
            some ((sessions.map (fun s => s.name)).get idx) ∧
         state.previous_session = some p ∧
         p ≠ (sessions.map (fun s => s.name)).get idx)) := by
  have hne : sessions.isEmpty = false := by
    cases sessions with
    | nil => exact absurd idx.isLt (by simp)
    | cons a l => rfl
  simp only [handle_kill_command, hne, Bool.false_eq_true, if_false,
    hpick, hkill, hsave]
  refine ⟨_, rfl, rfl, rfl, rfl, ?_⟩
  intro p
  by_cases hcur : current_result.toOption =
      some ((sessions.map (fun s => s.name)).get idx)
  · rw [if_pos hcur]
    cases hprev : state.previous_session with
    | none =>
      constructor
      · intro h
        exact Option.noConfusion h
      · rintro ⟨_, hp2, _⟩
        exact Option.noConfusion hp2
    | some prev =>
      by_cases hps : prev = (sessions.map (fun s => s.name)).get idx
      · show (if prev ≠ (sessions.map (fun s => s.name)).get idx
            then some prev else none) = some p ↔ _
        rw [if_neg (not_not_intro hps)]
        constructor
        · intro h
          exact Option.noConfusion h
        · rintro ⟨_, hp2, hp3⟩
          injection hp2 with h'
          exact absurd (h' ▸ hps) hp3
      · show (if prev ≠ (sessions.map (fun s => s.name)).get idx
            then some prev else none) = some p ↔ _
        rw [if_pos hps]
        constructor
        · intro h
          injection h with h'
          subst h'
          exact ⟨hcur, rfl, hps⟩
        · rintro ⟨_, hp2, _⟩
          exact hp2
  · rw [if_neg hcur]
    constructor
    · intro h
      exact Option.noConfusion h
    · rintro ⟨h1, _, _⟩
      exact absurd h1 hcur

/-- Witness for C2, covering the claim's three scenarios: killing the
currently-focused session `S` with history `[P, S]` attempts a switch to
`P`; killing a non-focused session triggers no switch; killing the sole
history entry (`[S]`, focused) leaves no fallback switch. -/
theorem kill_flow_spec_witness :
    (∃ out, handle_kill_command
        (.ok [{ name := "S", last_active := 0 }])
        { version := 1, history := ["P", "S"],
          cache := { projects := [], updated_at := 0, ttl := 3600 } }
        (.ok "S") pickFirst killFxOk = .ok out ∧
      out.killed = some "S" ∧ out.switched = some "P") ∧
    (∃ out, handle_kill_command
        (.ok [{ name := "S", last_active := 0 }])
        { version := 1, history := ["P", "S"],
          cache := { projects := [], updated_at := 0, ttl := 3600 } }
        (.ok "other") pickFirst killFxOk = .ok out ∧
      out.killed = some "S" ∧ out.switched = none) ∧
    (∃ out, handle_kill_command
        (.ok [{ name := "S", last_active := 0 }])
        { version := 1, history := ["S"],
          cache := { projects := [], updated_at := 0, ttl := 3600 } }
        (.ok "S") pickFirst killFxOk = .ok out ∧
      out.killed = some "S" ∧ out.switched = none) := by
  refine ⟨?_, ?_, ?_⟩
  · obtain ⟨out, hrun, hk, _, _, hsw⟩ :=
      kill_flow_spec [{ name := "S", last_active := 0 }]
        { version := 1, history := ["P", "S"],
          cache := { projects := [], updated_at := 0, ttl := 3600 } }
        (.ok "S") pickFirst killFxOk ⟨0, by decide⟩ rfl rfl (fun _ => rfl)
    exact ⟨out, hrun, hk, (hsw "P").mpr ⟨rfl, rfl, by decide⟩⟩
  · obtain ⟨out, hrun, hk, _, _, hsw⟩ :=
      kill_flow_spec [{ name := "S", last_active := 0 }]
        { version := 1, history := ["P", "S"],
          cache := { projects := [], updated_at := 0, ttl := 3600 } }
        (.ok "other") pickFirst killFxOk ⟨0, by decide⟩ rfl rfl (fun _ => rfl)
    refine ⟨out, hrun, hk, ?_⟩
    cases hval : out.switched with
    | none => rfl
    | some p =>
      obtain ⟨hcur, _, _⟩ := (hsw p).mp hval
      exact absurd hcur (by decide)
  · obtain ⟨out, hrun, hk, _, _, hsw⟩ :=
      kill_flow_spec [{ name := "S", last_active := 0 }]
        { version := 1, history := ["S"],
          cache := { projects := [], updated_at := 0, ttl := 3600 } }
        (.ok "S") pickFirst killFxOk ⟨0, by decide⟩ rfl rfl (fun _ => rfl)
    refine ⟨out, hrun, hk, ?_⟩
    cases hval : out.switched with
    | none => rfl
    | some p =>
      obtain ⟨_, hprev, hne⟩ := (hsw p).mp hval
      injection hprev with h
      exact absurd h.symm hne

/-- Counterexample to C5: with one live session "S", history
`["P", "S"]`, and the current-session query failing (the very error
value `TmuxClient::current_session` produces for a failed command), the
kill flow does NOT propagate the failure: it returns success, the kill
of "S" proceeds, history removal and persistence happen — the error is
swallowed by the `.ok()` at the call site. -/
theorem kill_current_query_failure_not_propagated :
    handle_kill_command (.ok [{ name := "S", last_active := 0 }])
      { version := 1, history := ["P", "S"],
        cache := { projects := [], updated_at := 0, ttl := 3600 } }
      (TmuxClient.current_session { success := false, stdout := "" })
      pickFirst killFxOk =
    .ok { killed := some "S", switched := none,
          saved := some { version := 1, history := ["P"],
                          cache := { projects := [], updated_at := 0,
                                     ttl := 3600 } },
          notice := none } := by
  rfl

/-- Amended C5: an inability to query the multiplexer for the current
session during the kill flow is swallowed, not surfaced: the kill
proceeds, no fallback switch is attempted, every occurrence of the
killed name is removed from history and persisted, and the command
succeeds (exit zero), provided the kill and save themselves succeed. -/
theorem kill_proceeds_when_current_query_fails (sessions : List SessionInfo)
    (state : State) (err : String)
    (pick : (labels : List String) → Option (Fin labels.length))
    (fx : KillEffects)
    (idx : Fin (sessions.map (fun s => s.name)).length)
    (hpick : pick (sessions.map (fun s => s.name)) = some idx)
    (hkill : fx.kill_session ((sessions.map (fun s => s.name)).get idx) =
      .ok ())
    (hsave : ∀ st, fx.save st = .ok ()) :
    handle_kill_command (.ok sessions) state (.error err) pick fx =
      .ok { killed := some ((sessions.map (fun s => s.name)).get idx)
            switched := none
            saved := some { state with
                            history := state.history.filter
                              (fun s => s ≠ (sessions.map (fun x => x.name)).get idx) }
            notice := none } := by
  have hne : sessions.isEmpty = false := by
    cases sessions with
    | nil => exact absurd idx.isLt (by simp)
    | cons a l => rfl
  simp only [handle_kill_command, hne, Bool.false_eq_true, if_false,
    hpick, hkill, hsave]
  rw [if_neg (by exact fun h => Option.noConfusion h)]

/-- Witness for the amended C5: a concrete failing current-session query
with the kill still succeeding. -/
theorem kill_proceeds_when_current_query_fails_witness :
    handle_kill_command (.ok [{ name := "S", last_active := 0 }])
      { version := 1, history := ["P", "S"],
        cache := { projects := [], updated_at := 0, ttl := 3600 } }
      (.error "Failed to get current session") pickFirst killFxOk =
    .ok { killed := some "S", switched := none,
          saved := some { version := 1, history := ["P"],
                          cache := { projects := [], updated_at := 0,
                                     ttl := 3600 } },
          notice := none } :=
  kill_proceeds_when_current_query_fails
    [{ name := "S", last_active := 0 }]
    { version := 1, history := ["P", "S"],
      cache := { projects := [], updated_at := 0, ttl := 3600 } }
    "Failed to get current session" pickFirst killFxOk ⟨0, by decide⟩
    rfl rfl (fun _ => rfl)

/-- C9: in the back flow, an empty history means no previous session:
the command reports "no previous session" and stops as a clean success;
a nonempty history always yields a previous session; and on success the
client is switched to the previous session and that session is pushed
onto the history again, ending up in the most-recent (last) position. -/
theorem back_flow_spec (state : State)
    (switch_client : String → Except String Unit)
    (save : State → Except String Unit) :
    (state.history = [] →
      handle_back_command state switch_client save =
        .ok { switched := none, saved := none,
              notice := some "No previous session in history" }) ∧
    (state.history ≠ [] → ∃ prev, state.previous_session = some prev) ∧
    (∀ prev, state.previous_session = some prev →
      switch_client prev = .ok () →
      save (state.push_history prev) = .ok () →
      handle_back_command state switch_client save =
        .ok { switched := some prev,
              saved := some (state.push_history prev),
              notice := none } ∧
      (state.push_history prev).history.getLast? = some prev) := by
  refine ⟨?_, ?_, ?_⟩
  · intro h
    have hprev : state.previous_session = none := by
      unfold State.previous_session
      rw [h, if_neg (by simp)]
      rfl
    unfold handle_back_command
    rw [hprev]
  · intro h
    unfold State.previous_session
    split
    · next hlen =>
      have hlt : state.history.length - 2 < state.history.length := by
        omega
      rw [List.get?_eq_getElem?]
      exact ⟨state.history[state.history.length - 2],
        by rw [List.getElem?_eq_getElem hlt]⟩
    · next hlen =>
      rcases hl : state.history.getLast? with _ | x
      · exact absurd (List.getLast?_eq_none_iff.mp hl) h
      · exact ⟨x, rfl⟩
  · intro prev hprev hsw hsv
    simp only [handle_back_command, hprev, hsw, hsv]
    exact ⟨trivial, push_history_getLast state prev⟩

/-- Witness for C9: with history `["A", "B"]` the back flow switches to
the previous session `"A"` and re-promotes it to the most-recent
position. -/
theorem back_flow_spec_witness :
    handle_back_command
      { version := 1, history := ["A", "B"],
        cache := { projects := [], updated_at := 0, ttl := 3600 } }
      (fun _ => .ok ()) (fun _ => .ok ()) =
    .ok { switched := some "A",
          saved := some (State.push_history
            { version := 1, history := ["A", "B"],
              cache := { projects := [], updated_at := 0, ttl := 3600 } }
            "A"),
          notice := none } :=
  ((back_flow_spec
      { version := 1, history := ["A", "B"],
        cache := { projects := [], updated_at := 0, ttl := 3600 } }
      (fun _ => .ok ()) (fun _ => .ok ())).2.2 "A" rfl rfl rfl).1

instance : IsTrans ProjectInfo ProjectInfo.le := by
  constructor
  intro a b c hab hbc
  rcases hab with h1 | ⟨h1, h1'⟩ <;> rcases hbc with h2 | ⟨h2, h2'⟩
  · exact Or.inl (lt_trans h1 h2)
  · exact Or.inl (lt_of_lt_of_eq h1 h2)
  · exact Or.inl (lt_of_eq_of_lt h1 h2)
  · exact Or.inr ⟨h1.trans h2, le_trans h1' h2'⟩

instance : IsTotal ProjectInfo ProjectInfo.le := by
  constructor
  intro a b
  rcases lt_trichotomy a.category b.category with h | h | h
  · exact Or.inl (Or.inl h)
  · rcases le_total a.name b.name with h' | h'
    · exact Or.inl (Or.inr ⟨h, h'⟩)
    · exact Or.inr (Or.inr ⟨h.symm, h'⟩)
  · exact Or.inr (Or.inl h)

/-- Example workspace with projects `work/alpha`, `work/zulu` and
`personal/beta`, listed on disk in that (unsorted) encounter order. -/
def exampleRoot : FsNode :=
  { name := some "workspace", path := "/ws", is_dir := true, readable := true,
    children :=
      [{ name := some "work", path := "/ws/work", is_dir := true,
         readable := true,
         children :=
           [{ name := some "alpha", path := "/ws/work/alpha", is_dir := true,
              readable := true, children := [] },
            { name := some "zulu", path := "/ws/work/zulu", is_dir := true,
              readable := true, children := [] }] },
       { name := some "personal", path := "/ws/personal", is_dir := true,
         readable := true,
         children :=
           [{ name := some "beta", path := "/ws/personal/beta", is_dir := true,
              readable := true, children := [] }] }] }

/-- C8: `scan(workspaceRoot)` yields exactly the directories at depth 2
under the root (directories only; entries with undecodable names and
subtrees that cannot be read are skipped, never aborting — the function
is total), sorted by `(category, name)` ascending; the example projects
`work/alpha`, `work/zulu`, `personal/beta` come back in the order
`personal/beta`, `work/alpha`, `work/zulu`. -/
theorem scan_projects_spec (root : FsNode) (p : ProjectInfo) :
    (p ∈ scan_projects root ↔
      (root.readable = true ∧ ∃ cat ∈ root.children,
        cat.is_dir = true ∧ cat.readable = true ∧
        cat.name = some p.category ∧
        ∃ entry ∈ cat.children, entry.is_dir = true ∧
          entry.name = some p.name ∧ entry.path = p.path)) ∧
    (scan_projects root).Sorted ProjectInfo.le ∧
    (scan_projects exampleRoot).map ProjectInfo.display_name =
      ["personal/beta", "work/alpha", "work/zulu"] := by
  refine ⟨?_, ?_, ?_⟩
  case refine_3 =>
    have hZP : ¬ ProjectInfo.le
        { path := "/ws/work/zulu", category := "work", name := "zulu" }
        { path := "/ws/personal/beta", category := "personal",
          name := "beta" } := by
      rintro (h | ⟨h, _⟩)
      · rw [String.lt_iff_toList_lt] at h
        exact absurd h (by decide)
      · exact absurd h (by decide)
    have hAP : ¬ ProjectInfo.le
        { path := "/ws/work/alpha", category := "work", name := "alpha" }
        { path := "/ws/personal/beta", category := "personal",
          name := "beta" } := by
      rintro (h | ⟨h, _⟩)
      · rw [String.lt_iff_toList_lt] at h
        exact absurd h (by decide)
      · exact absurd h (by decide)
    have hAZ : ProjectInfo.le
        { path := "/ws/work/alpha", category := "work", name := "alpha" }
        { path := "/ws/work/zulu", category := "work", name := "zulu" } :=
      Or.inr ⟨rfl, by simp only [String.le_iff_toList_le]; decide⟩
    show (List.insertionSort ProjectInfo.le
      [{ path := "/ws/work/alpha", category := "work", name := "alpha" },
       { path := "/ws/work/zulu", category := "work", name := "zulu" },
       { path := "/ws/personal/beta", category := "personal",
         name := "beta" }]).map ProjectInfo.display_name = _
    simp only [List.insertionSort, List.orderedInsert, hZP, hAP, hAZ,
      ite_true, ite_false, if_true, if_false]
    decide
  · unfold scan_projects
    rw [List.Perm.mem_iff (List.perm_insertionSort _ _)]
    simp only [List.mem_flatMap, List.mem_filterMap]
    constructor
    · rintro ⟨cat, hcat, entry, hentry, hres⟩
      by_cases hro : root.readable = true
      case neg =>
        rw [if_neg (by simpa using hro)] at hcat
        exact absurd hcat (List.not_mem_nil cat)
      rw [if_pos hro] at hcat
      by_cases hcd : (cat.is_dir && cat.readable) = true
      case neg =>
        rw [if_neg hcd] at hentry
        exact absurd hentry (List.not_mem_nil entry)
      rw [if_pos hcd] at hentry
      obtain ⟨hcdir, hcread⟩ := Bool.and_eq_true_iff.mp hcd
      by_cases hed : entry.is_dir = true
      case neg =>
        rw [if_neg (by simpa using hed)] at hres
        exact absurd hres (by simp)
      rw [if_pos hed] at hres
      cases hcn : cat.name with
      | none => rw [hcn] at hres; exact absurd hres (by simp)
      | some c =>
        cases hen : entry.name with
        | none => rw [hcn, hen] at hres; exact absurd hres (by simp)
        | some n =>
          rw [hcn, hen] at hres
          simp only [Option.some.injEq] at hres
          subst hres
          exact ⟨hro, cat, hcat, hcdir, hcread, hcn, entry, hentry, hed,
            hen, rfl⟩
    · rintro ⟨hro, cat, hcat, hcdir, hcread, hcn, entry, hentry, hed,
        hen, hep⟩
      refine ⟨cat, by rw [if_pos hro]; exact hcat, entry, ?_, ?_⟩
      · rw [if_pos (by rw [hcdir, hcread]; rfl)]
        exact hentry
      · rw [if_pos hed, hcn, hen]
        show some { path := entry.path, category := p.category,
                    name := p.name } = some p
        rw [hep]
  · unfold scan_projects
    exact List.sorted_insertionSort _ _

end Ws
